import Mathlib

/-!
Shallow embedding of the Crossword-Game repository, covering
src/WordHandler.py (class Words: orientation selection and random word
placement) and src/Main.py (mouse-to-grid conversion, letter-tile layout
and the main game loop).

Modelling conventions:
* every call to random.randrange receives its result as an explicit
  oracle argument; `validDraw` states that the supplied values are
  possible outputs of the two randrange calls of __select_random_pos
  (in particular randrange needs a positive argument, which forces
  word_len ≤ grid_dimension);
* the unbounded collision-retry loop of __select_pos is modelled with
  explicit fuel, `none` meaning the loop has not exited within the fuel;
* Python dicts are modelled as association lists in insertion order,
  a pygame Surface holding a letter tile is modelled by its letter;
* machine reals never appear: all grid arithmetic in the source is on
  Python ints, modelled as Nat.
-/

namespace Crossword

abbrev Coord := Nat × Nat

/-- The four orientation codes used by Words.__select_orientation:
HL (horizontal from left), HR (horizontal from right),
VU (vertical from up), VD (vertical from down). -/
inductive Orientation where
  | HL
  | HR
  | VU
  | VD
  deriving DecidableEq

/-- The ORIENTATIONS list of Words.__select_orientation. -/
def ORIENTATIONS : List Orientation := [.HL, .HR, .VU, .VD]

/-- The `orientation[0] == "H"` test of Words.__select_random_pos. -/
def Orientation.isHorizontal : Orientation → Bool
  | .HL => true
  | .HR => true
  | .VU => false
  | .VD => false

/-- The `orientation[1] in "RD"` test of Main.get_word_data: these two
orientations reverse the word before letters are mapped to coordinates. -/
def Orientation.reversesWord : Orientation → Bool
  | .HL => false
  | .HR => true
  | .VU => false
  | .VD => true

/-- Words.__select_random_pos.  The two randrange results are passed in
explicitly: r1 is the first draw (randrange(grid_dimension)) and r2 the
second (randrange(grid_dimension - word_len + 1)).  In the horizontal
branch the first draw is y_pos and the second x_pos; in the vertical
branch the first draw is x_pos and the second y_pos. -/
def select_random_pos (orientation : Orientation)
    (grid_dimension word_len r1 r2 : Nat) : List Coord :=
  if orientation.isHorizontal then
    (List.range word_len).map (fun i => (r2 + i, r1))
  else
    (List.range word_len).map (fun i => (r1, r2 + i))

/-- r1 and r2 are possible outputs of the two randrange calls of
__select_random_pos.  Python's randrange(n) raises ValueError unless
n > 0, so a successful call forces word_len ≤ grid_dimension (the second
argument is grid_dimension - word_len + 1 over the integers), and each
result is strictly below its argument. -/
def validDraw (grid_dimension word_len r1 r2 : Nat) : Prop :=
  word_len ≤ grid_dimension ∧ r1 < grid_dimension ∧
    r2 < grid_dimension - word_len + 1

instance (d l r1 r2 : Nat) : Decidable (validDraw d l r1 r2) := by
  unfold validDraw
  infer_instance

/-- C2: a placement produced by __select_random_pos from valid randrange
draws has exactly one coordinate per letter (length = word_len), every
coordinate inside [0, dim) × [0, dim), and the coordinates contiguous
with unit step along a single axis in forward grid order: constant y
with x increasing by 1 for horizontal orientations, constant x with y
increasing by 1 for vertical orientations. -/
theorem select_random_pos_shape (orientation : Orientation)
    (grid_dimension word_len r1 r2 : Nat)
    (h : validDraw grid_dimension word_len r1 r2) :
    (select_random_pos orientation grid_dimension word_len r1 r2).length
        = word_len ∧
    (∀ c ∈ select_random_pos orientation grid_dimension word_len r1 r2,
        c.1 < grid_dimension ∧ c.2 < grid_dimension) ∧
    (orientation.isHorizontal = true →
      select_random_pos orientation grid_dimension word_len r1 r2 =
        (List.range word_len).map (fun i => (r2 + i, r1))) ∧
    (orientation.isHorizontal = false →
      select_random_pos orientation grid_dimension word_len r1 r2 =
        (List.range word_len).map (fun i => (r1, r2 + i))) := by
  obtain ⟨hlen, hr1, hr2⟩ := h
  refine ⟨?_, ?_, ?_, ?_⟩
  · unfold select_random_pos
    cases horiz : orientation.isHorizontal <;> simp
  · intro c hc
    unfold select_random_pos at hc
    cases horiz : orientation.isHorizontal <;>
      rw [horiz] at hc <;> simp at hc <;>
      obtain ⟨i, hi, rfl⟩ := hc <;> constructor <;> simp <;> omega
  · intro horiz
    unfold select_random_pos
    rw [horiz]
    simp
  · intro horiz
    unfold select_random_pos
    rw [horiz]
    simp

/-- Witness for select_random_pos_shape at a concrete input: word length
3 on a 4 × 4 grid, horizontal draw y = 1, x = 0 (the "CAT" example). -/
theorem select_random_pos_shape_witness :
    (select_random_pos .HL 4 3 1 0).length = 3 ∧
    select_random_pos .HL 4 3 1 0 = [(0, 1), (1, 1), (2, 1)] :=
  ⟨(select_random_pos_shape .HL 4 3 1 0 (by decide)).1,
   ((select_random_pos_shape .HL 4 3 1 0 (by decide)).2.2.1 rfl).trans
     (by decide)⟩

/-- C4 counterexample: with grid dimension 4 and word length 3, r2 = 1 is
a valid output of randrange(4 - 3 + 1) = randrange(2), and the chosen
starting x is 1 = dim - len, which is not strictly less than dim - len;
the claim's half-open range [0, dim - len) for the starting x is
therefore wrong. -/
theorem select_random_pos_start_not_below_bound :
    validDraw 4 3 0 1 ∧
    select_random_pos .HL 4 3 0 1 = [(1, 0), (2, 0), (3, 0)] ∧
    ¬ (1 < 4 - 3) := by
  refine ⟨by decide, by decide, by decide⟩

/-- C4 amended: for a horizontal orientation on a grid of dimension dim
with a word of length len ≤ dim, the valid draws are exactly y in
[0, dim) and starting x in the closed range [0, dim - len] (that is, the
half-open range [0, dim - len + 1)), and the candidate coordinates are
(x + i, y) for i in [0, len); conversely every such (x, y) pair arises
from some valid draw. -/
theorem select_random_pos_horizontal_range (orientation : Orientation)
    (dim len : Nat) (hlen : len ≤ dim)
    (horiz : orientation.isHorizontal = true) :
    (∀ r1 r2, validDraw dim len r1 r2 →
      r1 < dim ∧ r2 ≤ dim - len ∧
      select_random_pos orientation dim len r1 r2 =
        (List.range len).map (fun i => (r2 + i, r1))) ∧
    (∀ x y, x ≤ dim - len → y < dim → validDraw dim len y x) := by
  constructor
  · intro r1 r2 ⟨_, hr1, hr2⟩
    refine ⟨hr1, by omega, ?_⟩
    unfold select_random_pos
    rw [horiz]
    simp
  · intro x y hx hy
    exact ⟨hlen, hy, by omega⟩

/-- Witness for select_random_pos_horizontal_range: dimension 4, word
length 3, orientation HR, with the flush-right draw x = 1 = dim - len. -/
theorem select_random_pos_horizontal_range_witness :
    1 ≤ 4 - 3 ∧
    select_random_pos .HR 4 3 1 1 = [(1, 1), (2, 1), (3, 1)] ∧
    validDraw 4 3 0 1 :=
  ⟨((select_random_pos_horizontal_range .HR 4 3 (by decide) rfl).1 1 1
      (by decide)).2.1,
   (((select_random_pos_horizontal_range .HR 4 3 (by decide) rfl).1 1 1
      (by decide)).2.2).trans (by decide),
   (select_random_pos_horizontal_range .HR 4 3 (by decide) rfl).2 1 0
      (by decide) (by decide)⟩

/-- One round of the collision-retry loop of Words.__select_pos, with
explicit fuel.  `draws a` supplies the pair of randrange results used by
attempt a.  The Python code draws a first candidate and then redraws
while any coordinate of the candidate is in occupied_positions, so a
`some` result is exactly an accepted candidate, none of whose
coordinates collides with the occupied set; `none` means the loop has
not exited within the given fuel. -/
def retryLoop (orientation : Orientation) (grid_dimension word_len : Nat)
    (occupied : List Coord) (draws : Nat → Nat × Nat) :
    Nat → Nat → Option (List Coord)
  | _, 0 => none
  | attempt, fuel + 1 =>
    let r := draws attempt
    let positions :=
      select_random_pos orientation grid_dimension word_len r.1 r.2
    if positions.any (fun p => occupied.contains p) then
      retryLoop orientation grid_dimension word_len occupied draws
        (attempt + 1) fuel
    else
      some positions

/-- The per-word loop of Words.__select_pos: for each (word, orientation)
pair, run the collision-retry loop against the current occupied set,
then add the accepted coordinates to the occupied set and record the
entry in the result mapping (an association list in insertion order,
modelling the Python dict pos_dict).  `draws i a` supplies the randrange
results of attempt a for the word at position i. -/
def selectPosGo (grid_dimension : Nat) (draws : Nat → Nat → Nat × Nat)
    (fuel : Nat) :
    List (String × Orientation) → Nat → List Coord →
      Option (List ((String × Orientation) × List Coord))
  | [], _, _ => some []
  | (word, orientation) :: rest, idx, occupied =>
    match retryLoop orientation grid_dimension word.length occupied
        (draws idx) 0 fuel with
    | none => none
    | some positions =>
      match selectPosGo grid_dimension draws fuel rest (idx + 1)
          (occupied ++ positions) with
      | none => none
      | some tail => some (((word, orientation), positions) :: tail)

/-- Words.__select_pos: the grid dimension is int(sqrt(grid_square_number))
(exact for the perfect squares the game uses, modelled by Nat.sqrt), the
occupied set starts empty, and the words are processed in the iteration
order of the word dict. -/
def select_pos (word_list : List (String × Orientation))
    (grid_square_number : Nat) (draws : Nat → Nat → Nat × Nat)
    (fuel : Nat) :
    Option (List ((String × Orientation) × List Coord)) :=
  selectPosGo (Nat.sqrt grid_square_number) draws fuel word_list 0 []

/-- Coordinate-disjointness of two entries of the placement mapping. -/
def placedDisj (a b : (String × Orientation) × List Coord) : Prop :=
  ∀ c ∈ a.2, c ∉ b.2

theorem placedDisj_symm {a b : (String × Orientation) × List Coord}
    (h : placedDisj a b) : placedDisj b a := by
  intro c hcb hca
  exact h c hca hcb

theorem retryLoop_some_not_mem (orientation : Orientation)
    (grid_dimension word_len : Nat) (occupied : List Coord)
    (draws : Nat → Nat × Nat) (attempt fuel : Nat) (ps : List Coord)
    (h : retryLoop orientation grid_dimension word_len occupied draws
        attempt fuel = some ps) :
    ∀ c ∈ ps, c ∉ occupied := by
  induction fuel generalizing attempt with
  | zero => simp [retryLoop] at h
  | succ fuel ih =>
    rw [retryLoop] at h
    split at h
    · exact ih (attempt + 1) h
    · rename_i hcol
      cases h
      intro c hc hmem
      exact hcol (List.any_eq_true.mpr ⟨c, hc, by simpa using hmem⟩)

theorem retryLoop_some_candidate (orientation : Orientation)
    (grid_dimension word_len : Nat) (occupied : List Coord)
    (draws : Nat → Nat × Nat) (attempt fuel : Nat) (ps : List Coord)
    (h : retryLoop orientation grid_dimension word_len occupied draws
        attempt fuel = some ps) :
    ∃ a, ps = select_random_pos orientation grid_dimension word_len
        (draws a).1 (draws a).2 := by
  induction fuel generalizing attempt with
  | zero => simp [retryLoop] at h
  | succ fuel ih =>
    rw [retryLoop] at h
    split at h
    · exact ih (attempt + 1) h
    · cases h
      exact ⟨attempt, rfl⟩

theorem selectPosGo_disjoint (grid_dimension : Nat)
    (draws : Nat → Nat → Nat × Nat) (fuel : Nat)
    (l : List (String × Orientation)) (idx : Nat) (occupied : List Coord)
    (result : List ((String × Orientation) × List Coord))
    (h : selectPosGo grid_dimension draws fuel l idx occupied
        = some result) :
    List.Pairwise placedDisj result ∧
      ∀ e ∈ result, ∀ c ∈ e.2, c ∉ occupied := by
  induction l generalizing idx occupied result with
  | nil =>
    rw [selectPosGo] at h
    cases h
    simp
  | cons head rest ih =>
    obtain ⟨word, orientation⟩ := head
    rw [selectPosGo] at h
    cases hr : retryLoop orientation grid_dimension word.length occupied
        (draws idx) 0 fuel with
    | none => rw [hr] at h; cases h
    | some positions =>
      rw [hr] at h
      dsimp only at h
      cases hrest : selectPosGo grid_dimension draws fuel rest (idx + 1)
          (occupied ++ positions) with
      | none => rw [hrest] at h; cases h
      | some tail =>
        rw [hrest] at h
        cases h
        obtain ⟨htailpw, htail⟩ := ih (idx + 1) (occupied ++ positions)
          tail hrest
        have hpos := retryLoop_some_not_mem orientation grid_dimension
          word.length occupied (draws idx) 0 fuel positions hr
        constructor
        · constructor
          · intro b hb c hc hcb
            exact htail b hb c hcb (List.mem_append.mpr (Or.inr hc))
          · exact htailpw
        · intro e he c hc
          rcases List.mem_cons.mp he with rfl | hetail
          · exact hpos c hc
          · intro hmem
            exact htail e hetail c hc (List.mem_append.mpr (Or.inl hmem))

/-- C1: whenever Words.__select_pos completes, the placement mapping it
produces assigns pairwise-disjoint coordinate lists: no grid coordinate
occurs in the coordinate lists of two different entries of the final
mapping. -/
theorem select_pos_placements_disjoint
    (word_list : List (String × Orientation))
    (grid_square_number fuel : Nat) (draws : Nat → Nat → Nat × Nat)
    (result : List ((String × Orientation) × List Coord))
    (h : select_pos word_list grid_square_number draws fuel = some result)
    (i j : Nat) (hi : i < result.length) (hj : j < result.length)
    (hij : i ≠ j) (c : Coord) (hc : c ∈ (result.get ⟨i, hi⟩).2) :
    c ∉ (result.get ⟨j, hj⟩).2 := by
  have hpw := (selectPosGo_disjoint (Nat.sqrt grid_square_number) draws
    fuel word_list 0 [] result h).1
  rcases Nat.lt_or_ge i j with hlt | hge
  · exact List.pairwise_iff_get.mp hpw ⟨i, hi⟩ ⟨j, hj⟩ hlt c hc
  · have hlt : j < i := Nat.lt_of_le_of_ne hge (Ne.symm hij)
    exact placedDisj_symm
      (List.pairwise_iff_get.mp hpw ⟨j, hj⟩ ⟨i, hi⟩ hlt) c hc

theorem sqrt_sixteen : Nat.sqrt 16 = 4 := by
  rw [show (16 : Nat) = 4 ^ 2 from rfl, Nat.sqrt_eq']

theorem sqrt_four : Nat.sqrt 4 = 2 := by
  rw [show (4 : Nat) = 2 ^ 2 from rfl, Nat.sqrt_eq']

/-- Witness for select_pos_placements_disjoint: two words placed on a
4 × 4 grid (16 cells); the coordinate (0, 0) of the first entry does not
occur in the second entry. -/
theorem select_pos_placements_disjoint_witness :
    ((0 : Nat), (0 : Nat)) ∉
      ([((("AB" : String), Orientation.HL),
            [((0 : Nat), (0 : Nat)), (1, 0)]),
          ((("CD" : String), Orientation.VU),
            [((1 : Nat), (1 : Nat)), (1, 2)])].get ⟨1, by decide⟩).2 :=
  select_pos_placements_disjoint
    [(("AB" : String), Orientation.HL), (("CD" : String), Orientation.VU)]
    16 1 (fun i _ => (i, i)) _
    (by simp only [select_pos, sqrt_sixteen]; rfl)
    0 1 (by decide) (by decide) (by decide) (0, 0) (by decide)

/-- The per-entry body of Main.get_word_data: the letters of the word
(reversed first for HR/VD orientations, `word[::-1]`) are zipped with the
forward-ordered coordinate list, each letter tile placed at pixel
position (x * block_size[0], y * block_size[1]).  A tile is modelled by
its letter together with its pixel position. -/
def placementTiles (block_size : Nat × Nat) (word : String)
    (orientation : Orientation) (pos_list : List Coord) :
    List (Char × (Nat × Nat)) :=
  (pos_list.zip (if orientation.reversesWord then word.toList.reverse
      else word.toList)).map
    (fun pc => (pc.2, (pc.1.1 * block_size.1, pc.1.2 * block_size.2)))

/-- Main.get_word_data without the fill_grid decoration: the
concatenation of the per-placement tile lists, in mapping order. -/
def get_word_data (word_data : List ((String × Orientation) × List Coord))
    (block_size : Nat × Nat) : List (Char × (Nat × Nat)) :=
  word_data.foldl
    (fun acc e => acc ++ placementTiles block_size e.1.1 e.1.2 e.2) []

/-- The letter shown at grid coordinate c: the first tile drawn at pixel
position (c.1 * block_size.1, c.2 * block_size.2). -/
def letterAt (tiles : List (Char × (Nat × Nat))) (block_size : Nat × Nat)
    (c : Coord) : Option Char :=
  (tiles.find?
    (fun t => t.2 == (c.1 * block_size.1, c.2 * block_size.2))).map
    (fun t => t.1)

/-- The reading direction of spec §4.2, used to state the round-trip
claim: a placement's forward-ordered coordinate list is read forwards
for HL/VU (LeftToRight/TopToBottom) and backwards for HR/VD
(RightToLeft/BottomToTop). -/
def readingOrder (orientation : Orientation) (pos_list : List Coord) :
    List Coord :=
  if orientation.reversesWord then pos_list.reverse else pos_list

theorem select_random_pos_length (orientation : Orientation)
    (dim len r1 r2 : Nat) :
    (select_random_pos orientation dim len r1 r2).length = len := by
  unfold select_random_pos
  split <;> simp

theorem select_random_pos_nodup (orientation : Orientation)
    (dim len r1 r2 : Nat) :
    (select_random_pos orientation dim len r1 r2).Nodup := by
  unfold select_random_pos
  split
  · exact List.Nodup.map
      (fun a b hab => by simpa [Prod.ext_iff] using hab) (List.nodup_range len)
  · exact List.Nodup.map
      (fun a b hab => by simpa [Prod.ext_iff] using hab) (List.nodup_range len)

theorem letterAt_cons_self (block_size : Nat × Nat) (p : Coord) (ch : Char)
    (rest : List (Char × (Nat × Nat))) :
    letterAt ((ch, (p.1 * block_size.1, p.2 * block_size.2)) :: rest)
      block_size p = some ch := by
  unfold letterAt
  rw [List.find?_cons_of_pos]
  · rfl
  · simp

theorem letterAt_cons_ne (block_size : Nat × Nat) (hbx : 0 < block_size.1)
    (hby : 0 < block_size.2) (p c : Coord) (ch : Char)
    (rest : List (Char × (Nat × Nat))) (hne : c ≠ p) :
    letterAt ((ch, (p.1 * block_size.1, p.2 * block_size.2)) :: rest)
      block_size c = letterAt rest block_size c := by
  unfold letterAt
  rw [List.find?_cons_of_neg]
  simp only [beq_iff_eq, Prod.mk.injEq]
  intro hcontra
  obtain ⟨h1, h2⟩ := hcontra
  exact hne (Prod.ext (Nat.eq_of_mul_eq_mul_right hbx h1.symm)
    (Nat.eq_of_mul_eq_mul_right hby h2.symm))

theorem map_letterAt_zip (block_size : Nat × Nat) (hbx : 0 < block_size.1)
    (hby : 0 < block_size.2) :
    ∀ (pos_list : List Coord) (w : List Char), pos_list.Nodup →
      pos_list.length = w.length →
      pos_list.map (letterAt ((pos_list.zip w).map
        (fun pc => (pc.2, (pc.1.1 * block_size.1, pc.1.2 * block_size.2))))
        block_size) = w.map some := by
  intro pos_list
  induction pos_list with
  | nil =>
    intro w _ hlen
    cases w
    · simp
    · simp at hlen
  | cons p ps ih =>
    intro w hnd hlen
    cases w with
    | nil => simp at hlen
    | cons ch cs =>
      simp only [List.zip_cons_cons, List.map_cons]
      rw [letterAt_cons_self]
      have htail : ∀ q ∈ ps,
          letterAt ((ch, (p.1 * block_size.1, p.2 * block_size.2)) ::
            (ps.zip cs).map (fun pc =>
              (pc.2, (pc.1.1 * block_size.1, pc.1.2 * block_size.2))))
            block_size q
          = letterAt ((ps.zip cs).map (fun pc =>
              (pc.2, (pc.1.1 * block_size.1, pc.1.2 * block_size.2))))
            block_size q := by
        intro q hq
        refine letterAt_cons_ne block_size hbx hby p q ch _ ?_
        intro hqp
        rw [hqp] at hq
        exact (List.nodup_cons.mp hnd).1 hq
      rw [List.map_congr_left htail]
      rw [ih cs (List.nodup_cons.mp hnd).2 (by simpa using hlen)]

/-- C3: round-trip.  For a placement generated by __select_random_pos,
assigning letter i of the word to coordinate i for HL/VU orientations
and letter i of the reversed word to coordinate i for HR/VD orientations
(as Main.get_word_data does), and then reading the letters back along
the orientation's reading direction, reproduces the original word
exactly. -/
theorem placement_readback_roundtrip (word : String)
    (orientation : Orientation) (dim r1 r2 : Nat)
    (block_size : Nat × Nat) (hbx : 0 < block_size.1)
    (hby : 0 < block_size.2) :
    (readingOrder orientation
        (select_random_pos orientation dim word.length r1 r2)).map
      (letterAt (placementTiles block_size word orientation
        (select_random_pos orientation dim word.length r1 r2)) block_size)
      = word.toList.map some := by
  have hnd := select_random_pos_nodup orientation dim word.length r1 r2
  have hlen := select_random_pos_length orientation dim word.length r1 r2
  unfold placementTiles readingOrder
  cases hrev : orientation.reversesWord with
  | false =>
    rw [if_neg (by decide), if_neg (by decide)]
    exact map_letterAt_zip block_size hbx hby _ word.toList hnd
      (by simp [hlen])
  | true =>
    rw [if_pos rfl, if_pos rfl]
    rw [List.map_reverse]
    rw [map_letterAt_zip block_size hbx hby _ word.toList.reverse hnd
      (by simp [hlen])]
    rw [← List.map_reverse, List.reverse_reverse]

/-- Witness for placement_readback_roundtrip: the word CAT read
right-to-left, placed on a 4 × 4 grid at y = 1, x = 0, with 50 × 50
pixel blocks. -/
theorem placement_readback_roundtrip_witness :
    (readingOrder .HR
        (select_random_pos .HR 4 ("CAT" : String).length 1 0)).map
      (letterAt (placementTiles (50, 50) ("CAT" : String) .HR
        (select_random_pos .HR 4 ("CAT" : String).length 1 0)) (50, 50))
      = ("CAT" : String).toList.map some :=
  placement_readback_roundtrip ("CAT" : String) .HR 4 1 0 (50, 50)
    (by decide) (by decide)

/-- Main.convert_mouse_pos_to_grid, translated literally:
(p - p % b) // b on each component. -/
def convert_mouse_pos_to_grid (mouse_pos block_size : Nat × Nat) : Coord :=
  ((mouse_pos.1 - mouse_pos.1 % block_size.1) / block_size.1,
   (mouse_pos.2 - mouse_pos.2 % block_size.2) / block_size.2)

/-- Lexicographic comparison of (x, y) int pairs: the order Python's
list.sort uses on tuples. -/
def coordLe (a b : Coord) : Bool :=
  a.1 < b.1 || (a.1 == b.1 && a.2 ≤ b.2)

/-- Stable insertion by coordLe. -/
def insertCoord (a : Coord) : List Coord → List Coord
  | [] => [a]
  | b :: rest =>
    if coordLe a b then a :: b :: rest else b :: insertCoord a rest

/-- mouse_drag_pos.sort() of Main.main: a stable sort by the
lexicographic tuple order (Python's sort is stable; the trace holds no
duplicates, so any stable comparison sort produces this list). -/
def sortTrace : List Coord → List Coord
  | [] => []
  | a :: rest => insertCoord a (sortTrace rest)

/-- The pygame events the main loop branches on.  QUIT terminates the
process and is not modelled; `other` stands for any event the loop
ignores. -/
inductive GEvent where
  | mousedown
  | mouseup
  | other
  deriving DecidableEq

/-- The event-polling loop of Main.main: MOUSEBUTTONDOWN sets
drag_event, MOUSEBUTTONUP clears it, other events leave it unchanged. -/
def foldEvents (events : List GEvent) (drag_event : Bool) : Bool :=
  events.foldl
    (fun d e =>
      match e with
      | .mousedown => true
      | .mouseup => false
      | .other => d)
    drag_event

/-- The mutable state of the while loop of Main.main. -/
structure GameState where
  words : List ((String × Orientation) × List Coord)
  alphabet_data : List (Char × (Nat × Nat))
  mouse_drag_pos : List Coord
  drag_event : Bool
  deriving DecidableEq

/-- The grid cell of a drawn tile, recovered from its pixel position by
(pos[0] // block_size[0], pos[1] // block_size[1]) as in the
match-removal loop of Main.main. -/
def tileCell (block_size : Nat × Nat) (t : Char × (Nat × Nat)) : Coord :=
  (t.2.1 / block_size.1, t.2.2 / block_size.2)

/-- One pass of the inner `for i, (_, pos) in enumerate(alphabet_data)`
loop of Main.main together with its `alphabet_data.pop(i)`: the live
list iterator advances by index while pop(i) shifts the remaining
elements one slot left, so right after a pop the element that moved
into the popped slot is skipped (emitted unexamined). -/
def popMatching (m : Char × (Nat × Nat) → Bool) :
    List (Char × (Nat × Nat)) → List (Char × (Nat × Nat))
  | [] => []
  | t :: rest =>
    if m t then
      match rest with
      | [] => []
      | s :: rest2 => s :: popMatching m rest2
    else t :: popMatching m rest

/-- The outer `for mouse_pos in mouse_drag_pos` loop of the match branch
of Main.main: one full pop-pass over alphabet_data per traced cell. -/
def removeTiles (block_size : Nat × Nat) :
    List Coord → List (Char × (Nat × Nat)) → List (Char × (Nat × Nat))
  | [], data => data
  | c :: rest, data =>
    removeTiles block_size rest
      (popMatching (fun t => tileCell block_size t == c) data)

/-- One iteration of the while loop of Main.main, fed this frame's
pygame events and mouse position.  In loop order: clear the trace if the
previous frame was not dragging, fold the events into drag_event, while
dragging append the current mouse cell to the trace (if absent) and
sort, on a just-ended drag compare the trace against every remaining
placement and on a match rebuild words without it and pop its tiles, and
finally report completion whenever words is empty.  The returned Bool
records whether this iteration printed "Congrats". -/
def step (mouse_pos block_size : Nat × Nat) (events : List GEvent)
    (s : GameState) : GameState × Bool :=
  let trace0 := if s.drag_event then s.mouse_drag_pos else []
  let drag_event := foldEvents events s.drag_event
  let trace1 :=
    if drag_event then
      sortTrace
        (if trace0.contains (convert_mouse_pos_to_grid mouse_pos block_size)
         then trace0
         else trace0 ++ [convert_mouse_pos_to_grid mouse_pos block_size])
    else trace0
  let st :=
    if drag_event = false ∧ trace1 ≠ [] then
      if s.words.any (fun wd => wd.2 == trace1) then
        (s.words.filter (fun wd => !(wd.2 == trace1)),
         removeTiles block_size trace1 s.alphabet_data)
      else (s.words, s.alphabet_data)
    else (s.words, s.alphabet_data)
  (⟨st.1, st.2, trace1, drag_event⟩, st.1.isEmpty)

/-- C6: the completion report is not a one-shot event.  The check
`if not words: print("Congrats")` sits inside the while loop of
Main.main with no terminal state, so once the active word set is empty
the message is printed again on every subsequent frame: starting from a
state with no words left, two consecutive frames with no input events
both report completion (the claim demands exactly one report for the
session). -/
theorem congrats_reported_every_frame :
    (step (0, 0) (50, 50) [] ⟨[], [], [], false⟩).2 = true ∧
    (step (0, 0) (50, 50) []
      (step (0, 0) (50, 50) [] ⟨[], [], [], false⟩).1).2 = true :=
  ⟨rfl, rfl⟩

/-- C9: convert_mouse_pos_to_grid is componentwise floor division with
no clamping to the grid bounds: (p - p % b) // b = p // b on each axis.
Consequently a pointer sample outside the 600 × 600 grid area (grid
dimension 12) taken during a drag yields an out-of-bounds cell that is
appended to the selection trace like any other: at pixel (1100, 700)
with 50 × 50 blocks the cell is (22, 14), outside [0, 12) × [0, 12). -/
theorem convert_mouse_pos_floor_div :
    (∀ mouse_pos block_size : Nat × Nat, 0 < block_size.1 →
      0 < block_size.2 →
      convert_mouse_pos_to_grid mouse_pos block_size =
        (mouse_pos.1 / block_size.1, mouse_pos.2 / block_size.2)) ∧
    convert_mouse_pos_to_grid (1100, 700) (50, 50) = (22, 14) ∧
    ¬ (22 < 12 ∧ 14 < 12) ∧
    (step (1100, 700) (50, 50) [] ⟨[], [], [], true⟩).1.mouse_drag_pos
      = [(22, 14)] := by
  refine ⟨?_, rfl, by decide, rfl⟩
  intro mp bs hbx hby
  unfold convert_mouse_pos_to_grid
  have h1 : mp.1 - mp.1 % bs.1 = bs.1 * (mp.1 / bs.1) := by
    have := Nat.mod_add_div mp.1 bs.1
    omega
  have h2 : mp.2 - mp.2 % bs.2 = bs.2 * (mp.2 / bs.2) := by
    have := Nat.mod_add_div mp.2 bs.2
    omega
  rw [h1, h2, Nat.mul_div_cancel_left _ hbx, Nat.mul_div_cancel_left _ hby]

/-- Witness for convert_mouse_pos_floor_div: concrete non-multiple
pixel position and block size. -/
theorem convert_mouse_pos_floor_div_witness :
    convert_mouse_pos_to_grid (99, 5) (10, 3) = (99 / 10, 5 / 3) :=
  convert_mouse_pos_floor_div.1 (99, 5) (10, 3) (by decide) (by decide)

theorem popMatching_countP_zero (m : Char × (Nat × Nat) → Bool) :
    ∀ l : List (Char × (Nat × Nat)), l.countP m = 0 → popMatching m l = l := by
  intro l
  induction l with
  | nil => intro _; rfl
  | cons t rest ih =>
    intro h
    cases hmt : m t
    · rw [List.countP_cons_of_neg m rest
        ((by simp [hmt]) : ¬ m t = true)] at h
      rw [popMatching.eq_def]
      dsimp only
      rw [if_neg (by simp [hmt]), ih h]
    · rw [List.countP_cons_of_pos m rest
        ((by simp [hmt]) : m t = true)] at h
      simp at h

theorem filter_keep_of_countP_zero (m : Char × (Nat × Nat) → Bool)
    (l : List (Char × (Nat × Nat))) (h : l.countP m = 0) :
    l.filter (fun t => !(m t)) = l :=
  List.filter_eq_self.mpr
    (fun a ha => by simp [List.countP_eq_zero.mp h a ha])

theorem popMatching_eq_filter (m : Char × (Nat × Nat) → Bool) :
    ∀ l : List (Char × (Nat × Nat)), l.countP m ≤ 1 →
      popMatching m l = l.filter (fun t => !(m t)) := by
  intro l
  induction l with
  | nil => intro _; rfl
  | cons t rest ih =>
    intro h
    cases hmt : m t
    · rw [List.countP_cons_of_neg m rest
        ((by simp [hmt]) : ¬ m t = true)] at h
      rw [popMatching.eq_def]
      dsimp only
      rw [if_neg (by simp [hmt]), List.filter_cons,
        if_pos (by simp [hmt]), ih h]
    · rw [List.countP_cons_of_pos m rest
        ((by simp [hmt]) : m t = true)] at h
      have hres : rest.countP m = 0 := by omega
      rw [popMatching.eq_def]
      dsimp only
      rw [if_pos (by simp [hmt]), List.filter_cons,
        if_neg (by simp [hmt])]
      cases rest with
      | nil => rfl
      | cons s rest2 =>
        have hms : m s = false := by
          cases hms2 : m s
          · rfl
          · rw [List.countP_cons_of_pos m rest2
              ((by simp [hms2]) : m s = true)] at hres
            simp at hres
        rw [List.countP_cons_of_neg m rest2
          ((by simp [hms]) : ¬ m s = true)] at hres
        rw [List.filter_cons, if_pos (by simp [hms])]
        dsimp only
        rw [popMatching_countP_zero m rest2 hres,
          filter_keep_of_countP_zero m rest2 hres]

theorem removeTiles_eq_filter (block_size : Nat × Nat) :
    ∀ (trace : List Coord) (data : List (Char × (Nat × Nat))),
      (∀ c : Coord,
        data.countP (fun t => tileCell block_size t == c) ≤ 1) →
      removeTiles block_size trace data =
        data.filter
          (fun t => !(trace.contains (tileCell block_size t))) := by
  intro trace
  induction trace with
  | nil =>
    intro data _
    rw [removeTiles]
    exact (List.filter_eq_self.mpr (fun a _ => by simp)).symm
  | cons c rest ih =>
    intro data hone
    rw [removeTiles, popMatching_eq_filter _ data (hone c)]
    rw [ih _ (fun c2 => le_trans
      (List.Sublist.countP_le _ (List.filter_sublist data)) (hone c2))]
    rw [List.filter_filter]
    apply List.filter_congr
    intro t _
    rw [List.contains_cons]
    cases h1 : (tileCell block_size t == c) <;>
      cases h2 : rest.contains (tileCell block_size t) <;> rfl

/-- In a list of placements with pairwise-disjoint, nonempty coordinate
lists, the entry holding a given coordinate list is unique: splitting
the list at one such entry, no other entry shares its coordinate
list. -/
theorem unique_match_split
    (words : List ((String × Orientation) × List Coord))
    (entry : (String × Orientation) × List Coord)
    (hpw : List.Pairwise placedDisj words)
    (hnonempty : ∀ e ∈ words, e.2 ≠ [])
    (hmem : entry ∈ words) :
    ∃ l1 l2, words = l1 ++ entry :: l2 ∧
      (∀ x ∈ l1, x.2 ≠ entry.2) ∧ (∀ x ∈ l2, x.2 ≠ entry.2) := by
  obtain ⟨l1, l2, rfl⟩ := List.append_of_mem hmem
  refine ⟨l1, l2, rfl, ?_, ?_⟩
  · intro x hx hx2
    have hcross := (List.pairwise_append.mp hpw).2.2 x hx entry
      (List.mem_cons_self entry l2)
    obtain ⟨c, hc⟩ := List.exists_mem_of_ne_nil _
      (hnonempty entry (by simp))
    exact hcross c (by rw [hx2]; exact hc) hc
  · intro x hx hx2
    have hhead := List.rel_of_pairwise_cons
      (List.pairwise_append.mp hpw).2.1 hx
    obtain ⟨c, hc⟩ := List.exists_mem_of_ne_nil _
      (hnonempty entry (by simp))
    exact hhead c hc (by rw [hx2]; exact hc)

theorem countP_cell_le_one_of_nodup (block_size : Nat × Nat) :
    ∀ data : List (Char × (Nat × Nat)),
      (data.map (tileCell block_size)).Nodup → ∀ c : Coord,
      data.countP (fun t => tileCell block_size t == c) ≤ 1 := by
  intro data
  induction data with
  | nil => intro _ c; simp
  | cons t rest ih =>
    intro hnd c
    rw [List.map_cons, List.nodup_cons] at hnd
    cases hm : (tileCell block_size t == c)
    · rw [List.countP_cons_of_neg (fun t2 => tileCell block_size t2 == c)
        rest ((by simp [hm]) : ¬ (tileCell block_size t == c) = true)]
      exact ih hnd.2 c
    · rw [List.countP_cons_of_pos (fun t2 => tileCell block_size t2 == c)
        rest ((by simp [hm]) : (tileCell block_size t == c) = true)]
      have hzero :
          rest.countP (fun t2 => tileCell block_size t2 == c) = 0 := by
        rw [List.countP_eq_zero]
        intro a ha hac
        apply hnd.1
        have hc : tileCell block_size a = c := by simpa using hac
        have ht : tileCell block_size t = c := by simpa using hm
        rw [ht, ← hc]
        exact List.mem_map_of_mem _ ha
      omega

instance (a b : (String × Orientation) × List Coord) :
    Decidable (placedDisj a b) := by
  unfold placedDisj
  infer_instance

/-- Reduction of one step of the main loop on a frame where a drag ends
(drag_event was set, the events clear it), the trace is nonempty, and
the trace equals some remaining placement: the matching placements are
filtered out of words and their tiles popped from alphabet_data. -/
theorem step_match_eq (mouse_pos block_size : Nat × Nat)
    (events : List GEvent) (s : GameState)
    (hprev : s.drag_event = true)
    (hdrag : foldEvents events s.drag_event = false)
    (hne : s.mouse_drag_pos ≠ [])
    (hmatch : s.words.any (fun wd => wd.2 == s.mouse_drag_pos) = true) :
    step mouse_pos block_size events s
      = (⟨s.words.filter (fun wd => !(wd.2 == s.mouse_drag_pos)),
          removeTiles block_size s.mouse_drag_pos s.alphabet_data,
          s.mouse_drag_pos, false⟩,
        (s.words.filter
          (fun wd => !(wd.2 == s.mouse_drag_pos))).isEmpty) := by
  obtain ⟨w, ad, mdp, de⟩ := s
  dsimp only at hprev hdrag hne hmatch ⊢
  subst hprev
  unfold step
  dsimp only
  rw [hdrag]
  rw [if_pos (show true = true from rfl)]
  rw [if_neg (show ¬ false = true by simp)]
  rw [if_pos (show (false = false ∧ mdp ≠ []) from ⟨rfl, hne⟩)]
  rw [hmatch]
  rw [if_pos (show true = true from rfl)]

/-- Reduction of one step of the main loop on a frame where a drag ends
and the trace matches no remaining placement: words and alphabet_data
are untouched. -/
theorem step_nomatch_eq (mouse_pos block_size : Nat × Nat)
    (events : List GEvent) (s : GameState)
    (hprev : s.drag_event = true)
    (hdrag : foldEvents events s.drag_event = false)
    (hany : s.words.any (fun wd => wd.2 == s.mouse_drag_pos) = false) :
    step mouse_pos block_size events s
      = (⟨s.words, s.alphabet_data, s.mouse_drag_pos, false⟩,
        s.words.isEmpty) := by
  obtain ⟨w, ad, mdp, de⟩ := s
  dsimp only at hprev hdrag hany ⊢
  subst hprev
  unfold step
  dsimp only
  rw [hdrag]
  rw [if_pos (show true = true from rfl)]
  rw [if_neg (show ¬ false = true by simp)]
  rw [hany]
  rw [if_neg (show ¬ false = true by simp)]
  rw [ite_self]

/-- On a frame that starts outside a drag with no events, the trace is
cleared at the top of the loop and stays empty. -/
theorem step_idle_trace (mp2 block_size : Nat × Nat) (s2 : GameState)
    (h : s2.drag_event = false) :
    (step mp2 block_size [] s2).1.mouse_drag_pos = [] := by
  obtain ⟨w, ad, mdp, de⟩ := s2
  dsimp only at h
  subst h
  rfl

/-- C7: when a drag ends and the (already sorted) selection trace equals
the coordinate list of a still-active placement, processing the
drag-end removes exactly that one placement — the active word set
shrinks by exactly one entry, keeping exactly the entries different
from it — and removes the letter tiles at the traced cells from the
display data.  Hypotheses record the placement-engine invariants:
pairwise-disjoint nonempty coordinate lists and at most one tile per
grid cell. -/
theorem match_removes_single_placement (mouse_pos block_size : Nat × Nat)
    (events : List GEvent) (s : GameState)
    (entry : (String × Orientation) × List Coord)
    (hprev : s.drag_event = true)
    (hdrag : foldEvents events s.drag_event = false)
    (hmem : entry ∈ s.words) (htr : entry.2 = s.mouse_drag_pos)
    (hne : s.mouse_drag_pos ≠ [])
    (hpw : List.Pairwise placedDisj s.words)
    (hnonempty : ∀ e ∈ s.words, e.2 ≠ [])
    (htiles : (s.alphabet_data.map (tileCell block_size)).Nodup) :
    (step mouse_pos block_size events s).1.words.length + 1
        = s.words.length ∧
    (∀ x, x ∈ (step mouse_pos block_size events s).1.words ↔
      (x ∈ s.words ∧ x ≠ entry)) ∧
    (step mouse_pos block_size events s).1.alphabet_data
      = s.alphabet_data.filter
          (fun t => !(s.mouse_drag_pos.contains
            (tileCell block_size t))) := by
  have hmatch : s.words.any (fun wd => wd.2 == s.mouse_drag_pos) = true :=
    List.any_eq_true.mpr ⟨entry, hmem, by simp [htr]⟩
  have hstep := step_match_eq mouse_pos block_size events s hprev hdrag
    hne hmatch
  obtain ⟨l1, l2, hsplit, hl1, hl2⟩ :=
    unique_match_split s.words entry hpw hnonempty hmem
  have hkeep1 : l1.filter (fun wd => !(wd.2 == s.mouse_drag_pos)) = l1 :=
    List.filter_eq_self.mpr (fun a ha => by
      simp
      rw [← htr]
      exact hl1 a ha)
  have hkeep2 : l2.filter (fun wd => !(wd.2 == s.mouse_drag_pos)) = l2 :=
    List.filter_eq_self.mpr (fun a ha => by
      simp
      rw [← htr]
      exact hl2 a ha)
  have hfil : s.words.filter (fun wd => !(wd.2 == s.mouse_drag_pos))
      = l1 ++ l2 := by
    rw [hsplit, List.filter_append, List.filter_cons,
      if_neg (by simp [htr]), hkeep1, hkeep2]
  refine ⟨?_, ?_, ?_⟩
  · rw [hstep]
    dsimp only
    rw [hfil, hsplit]
    simp
    omega
  · intro x
    rw [hstep]
    dsimp only
    rw [hfil]
    constructor
    · intro hx
      rcases List.mem_append.mp hx with hx1 | hx2
      · refine ⟨?_, fun hxe => hl1 x hx1 (by rw [hxe])⟩
        rw [hsplit]
        exact List.mem_append.mpr (Or.inl hx1)
      · refine ⟨?_, fun hxe => hl2 x hx2 (by rw [hxe])⟩
        rw [hsplit]
        exact List.mem_append.mpr
          (Or.inr (List.mem_cons.mpr (Or.inr hx2)))
    · rintro ⟨hxw, hxne⟩
      rw [hsplit] at hxw
      rcases List.mem_append.mp hxw with hx1 | hx2
      · exact List.mem_append.mpr (Or.inl hx1)
      · rcases List.mem_cons.mp hx2 with rfl | hx3
        · exact absurd rfl hxne
        · exact List.mem_append.mpr (Or.inr hx3)
  · rw [hstep]
    dsimp only
    exact removeTiles_eq_filter block_size _ _
      (countP_cell_le_one_of_nodup block_size _ htiles)

/-- Witness for match_removes_single_placement: on a frame ending a drag
whose trace is the coordinate list of AB, the word AB and the tiles at
(0,0) and (1,0) are removed, while CD and the filler tile survive. -/
theorem match_removes_single_placement_witness :
    (step (0, 0) (50, 50) [GEvent.mouseup]
        ⟨[((("AB" : String), Orientation.HL), [(0, 0), (1, 0)]),
          ((("CD" : String), Orientation.VU), [(1, 1), (1, 2)])],
         [('A', (0, 0)), ('B', (50, 0)), ('C', (50, 50)),
          ('D', (50, 100)), ('Z', (100, 100))],
         [(0, 0), (1, 0)], true⟩).1.words.length + 1 = 2 ∧
    (step (0, 0) (50, 50) [GEvent.mouseup]
        ⟨[((("AB" : String), Orientation.HL), [(0, 0), (1, 0)]),
          ((("CD" : String), Orientation.VU), [(1, 1), (1, 2)])],
         [('A', (0, 0)), ('B', (50, 0)), ('C', (50, 50)),
          ('D', (50, 100)), ('Z', (100, 100))],
         [(0, 0), (1, 0)], true⟩).1.alphabet_data
      = [('C', (50, 50)), ('D', (50, 100)), ('Z', (100, 100))] :=
  ⟨(match_removes_single_placement (0, 0) (50, 50) [GEvent.mouseup] _
      ((("AB" : String), Orientation.HL), [(0, 0), (1, 0)])
      rfl rfl (by decide) rfl (by decide) (by decide) (by decide)
      (by decide)).1,
   ((match_removes_single_placement (0, 0) (50, 50) [GEvent.mouseup] _
      ((("AB" : String), Orientation.HL), [(0, 0), (1, 0)])
      rfl rfl (by decide) rfl (by decide) (by decide) (by decide)
      (by decide)).2.2).trans (by decide)⟩

/-- C8: when a drag ends and the sorted trace equals no still-active
placement's coordinate list, nothing is mutated: the active word set
and the tile display data are exactly as before, and the trace is
discarded at the top of the next frame. -/
theorem no_match_preserves_state (mouse_pos block_size mp2 : Nat × Nat)
    (events : List GEvent) (s : GameState)
    (hprev : s.drag_event = true)
    (hdrag : foldEvents events s.drag_event = false)
    (hnomatch : ∀ e ∈ s.words, e.2 ≠ s.mouse_drag_pos) :
    (step mouse_pos block_size events s).1.words = s.words ∧
    (step mouse_pos block_size events s).1.alphabet_data
        = s.alphabet_data ∧
    (step mp2 block_size []
      (step mouse_pos block_size events s).1).1.mouse_drag_pos = [] := by
  have hany : s.words.any (fun wd => wd.2 == s.mouse_drag_pos)
      = false := by
    rw [List.any_eq_false]
    intro e he
    simp [hnomatch e he]
  have hstep := step_nomatch_eq mouse_pos block_size events s hprev
    hdrag hany
  refine ⟨by rw [hstep], by rw [hstep], ?_⟩
  rw [hstep]
  exact step_idle_trace mp2 block_size _ rfl

/-- Witness for no_match_preserves_state: a drag ends on trace [(0, 1)],
which matches no placement; AB and its tile survive and the next frame
clears the trace. -/
theorem no_match_preserves_state_witness :
    (step (0, 0) (50, 50) [GEvent.mouseup]
        ⟨[((("AB" : String), Orientation.HL), [(0, 0), (1, 0)])],
         [('A', (0, 0))], [(0, 1)], true⟩).1.words
      = [((("AB" : String), Orientation.HL), [(0, 0), (1, 0)])] ∧
    (step (0, 0) (50, 50) []
      (step (0, 0) (50, 50) [GEvent.mouseup]
        ⟨[((("AB" : String), Orientation.HL), [(0, 0), (1, 0)])],
         [('A', (0, 0))], [(0, 1)], true⟩).1).1.mouse_drag_pos = [] :=
  ⟨(no_match_preserves_state (0, 0) (50, 50) (0, 0) [GEvent.mouseup]
      ⟨[((("AB" : String), Orientation.HL), [(0, 0), (1, 0)])],
       [('A', (0, 0))], [(0, 1)], true⟩ rfl rfl (by decide)).1,
   (no_match_preserves_state (0, 0) (50, 50) (0, 0) [GEvent.mouseup]
      ⟨[((("AB" : String), Orientation.HL), [(0, 0), (1, 0)])],
       [('A', (0, 0))], [(0, 1)], true⟩ rfl rfl (by decide)).2.2⟩

/-- Python dict assignment d[k] = v as performed by the dict
comprehension of Words.__select_orientation: an existing key keeps its
position and receives the new value, a new key is appended. -/
def dictInsert (d : List (String × Orientation)) (k : String)
    (v : Orientation) : List (String × Orientation) :=
  if d.any (fun p => p.1 == k) then
    d.map (fun p => if p.1 == k then (p.1, v) else p)
  else d ++ [(k, v)]

/-- Words.__select_orientation, `{word: choice(ORIENTATIONS) for word in
word_list}`: `orients i` is the oracle for the choice() call made while
processing the word at position i; a duplicated word overwrites its
earlier entry, as the dict comprehension does. -/
def selectOrientationGo (orients : Nat → Orientation) :
    List String → Nat → List (String × Orientation) →
      List (String × Orientation)
  | [], _, d => d
  | w :: rest, idx, d =>
    selectOrientationGo orients rest (idx + 1)
      (dictInsert d w (orients idx))

def select_orientation (word_list : List String)
    (orients : Nat → Orientation) : List (String × Orientation) :=
  selectOrientationGo orients word_list 0 []

theorem any_key_iff (d : List (String × Orientation)) (k : String) :
    d.any (fun p => p.1 == k) = true ↔ k ∈ d.map Prod.fst := by
  rw [List.any_eq_true]
  constructor
  · rintro ⟨p, hp, hpk⟩
    exact List.mem_map.mpr ⟨p, hp, by simpa using hpk⟩
  · intro hk
    obtain ⟨p, hp, hpk⟩ := List.mem_map.mp hk
    exact ⟨p, hp, by simp [hpk]⟩

theorem dictInsert_keys (d : List (String × Orientation)) (k : String)
    (v : Orientation) :
    (dictInsert d k v).map Prod.fst =
      if k ∈ d.map Prod.fst then d.map Prod.fst
      else d.map Prod.fst ++ [k] := by
  unfold dictInsert
  cases hany : d.any (fun p => p.1 == k)
  · rw [if_neg (show ¬ false = true by simp)]
    rw [if_neg (fun hk => by
      rw [(any_key_iff d k).mpr hk] at hany
      cases hany)]
    simp
  · rw [if_pos rfl, if_pos ((any_key_iff d k).mp hany), List.map_map]
    apply List.map_congr_left
    intro p _
    simp only [Function.comp_apply]
    rw [apply_ite Prod.fst]
    simp

theorem dictInsert_keys_nodup (d : List (String × Orientation))
    (k : String) (v : Orientation) (h : (d.map Prod.fst).Nodup) :
    ((dictInsert d k v).map Prod.fst).Nodup := by
  rw [dictInsert_keys]
  split
  · exact h
  · rename_i hk
    rw [List.nodup_append]
    refine ⟨h, List.nodup_singleton k, ?_⟩
    intro a ha hak
    rw [List.mem_singleton] at hak
    subst hak
    exact hk ha

theorem dictInsert_keys_mem (d : List (String × Orientation)) (k : String)
    (v : Orientation) (x : String) :
    x ∈ (dictInsert d k v).map Prod.fst ↔
      x = k ∨ x ∈ d.map Prod.fst := by
  rw [dictInsert_keys]
  split
  · rename_i hk
    constructor
    · exact Or.inr
    · rintro (rfl | hx)
      · exact hk
      · exact hx
  · rw [List.mem_append, List.mem_singleton, or_comm]

theorem selectOrientationGo_keys_nodup (orients : Nat → Orientation) :
    ∀ (ws : List String) (idx : Nat) (d : List (String × Orientation)),
      (d.map Prod.fst).Nodup →
      ((selectOrientationGo orients ws idx d).map Prod.fst).Nodup := by
  intro ws
  induction ws with
  | nil => intro idx d h; exact h
  | cons w rest ih =>
    intro idx d h
    exact ih (idx + 1) _ (dictInsert_keys_nodup d w (orients idx) h)

/-- The word keys of the orientation dict are duplicate-free: a repeated
input word collapses onto one entry. -/
theorem select_orientation_keys_nodup (word_list : List String)
    (orients : Nat → Orientation) :
    ((select_orientation word_list orients).map Prod.fst).Nodup :=
  selectOrientationGo_keys_nodup orients word_list 0 [] (by simp)

theorem selectOrientationGo_keys_mem (orients : Nat → Orientation) :
    ∀ (ws : List String) (idx : Nat) (d : List (String × Orientation))
      (w : String), (w ∈ ws ∨ w ∈ d.map Prod.fst) →
      w ∈ (selectOrientationGo orients ws idx d).map Prod.fst := by
  intro ws
  induction ws with
  | nil =>
    intro idx d w hw
    rcases hw with hw | hw
    · cases hw
    · exact hw
  | cons w0 rest ih =>
    intro idx d w hw
    apply ih (idx + 1) (dictInsert d w0 (orients idx)) w
    rcases hw with hw | hw
    · rcases List.mem_cons.mp hw with rfl | hw2
      · exact Or.inr ((dictInsert_keys_mem d w (orients idx) w).mpr
          (Or.inl rfl))
      · exact Or.inl hw2
    · exact Or.inr ((dictInsert_keys_mem d w0 (orients idx) w).mpr
        (Or.inr hw))

theorem selectPosGo_keys (grid_dimension : Nat)
    (draws : Nat → Nat → Nat × Nat) (fuel : Nat) :
    ∀ (l : List (String × Orientation)) (idx : Nat)
      (occupied : List Coord)
      (result : List ((String × Orientation) × List Coord)),
      selectPosGo grid_dimension draws fuel l idx occupied = some result →
      result.map Prod.fst = l := by
  intro l
  induction l with
  | nil =>
    intro idx occupied result h
    rw [selectPosGo] at h
    cases h
    rfl
  | cons head rest ih =>
    intro idx occupied result h
    obtain ⟨word, orientation⟩ := head
    rw [selectPosGo] at h
    cases hr : retryLoop orientation grid_dimension word.length occupied
        (draws idx) 0 fuel with
    | none => rw [hr] at h; cases h
    | some positions =>
      rw [hr] at h
      dsimp only at h
      cases hrest : selectPosGo grid_dimension draws fuel rest (idx + 1)
          (occupied ++ positions) with
      | none => rw [hrest] at h; cases h
      | some tail =>
        rw [hrest] at h
        cases h
        rw [List.map_cons, ih (idx + 1) (occupied ++ positions) tail hrest]

/-- C10: a word list containing the same word more than once collapses
during orientation selection (the dict is keyed by the word string), so
the final placement mapping holds at most one entry per distinct word —
its word keys are duplicate-free — and every distinct input word gets
exactly one orientation and one coordinate list. -/
theorem duplicate_words_collapse (word_list : List String)
    (orients : Nat → Orientation) (grid_square_number fuel : Nat)
    (draws : Nat → Nat → Nat × Nat)
    (result : List ((String × Orientation) × List Coord))
    (h : select_pos (select_orientation word_list orients)
        grid_square_number draws fuel = some result) :
    (result.map (fun e => e.1.1)).Nodup ∧
    ∀ w ∈ word_list, ∃ o ps, ((w, o), ps) ∈ result := by
  have hkeys := selectPosGo_keys (Nat.sqrt grid_square_number) draws fuel
    (select_orientation word_list orients) 0 [] result h
  constructor
  · have hnd := select_orientation_keys_nodup word_list orients
    rw [← hkeys, List.map_map] at hnd
    exact hnd
  · intro w hw
    have hmem : w ∈ (select_orientation word_list orients).map Prod.fst :=
      selectOrientationGo_keys_mem orients word_list 0 [] w (Or.inl hw)
    rw [← hkeys, List.map_map] at hmem
    obtain ⟨⟨⟨w1, o⟩, ps⟩, he, hek⟩ := List.mem_map.mp hmem
    simp only [Function.comp_apply] at hek
    cases hek
    exact ⟨o, ps, he⟩

/-- Witness for duplicate_words_collapse: the duplicated list
["AB", "AB"] produces a single-entry mapping keyed by AB (the second
occurrence's draws win). -/
theorem duplicate_words_collapse_witness :
    (([((("AB" : String), Orientation.VU), [(0, 0), (0, 1)])].map
        (fun e => e.1.1)).Nodup) ∧
    (∀ w ∈ [("AB" : String), ("AB" : String)], ∃ o ps, ((w, o), ps) ∈
      [((("AB" : String), Orientation.VU), [(0, 0), (0, 1)])]) :=
  duplicate_words_collapse [("AB" : String), ("AB" : String)]
    (fun _ => Orientation.VU) 16 1 (fun _ _ => (0, 0)) _
    (by simp only [select_pos, sqrt_sixteen]; rfl)

/-- The four cells of the 2 × 2 grid (grid_square_number = 4). -/
def grid4 : List Coord := [(0, 0), (1, 0), (0, 1), (1, 1)]

/-- The four possible candidate placements of a length-2 word on the
2 × 2 grid: the two rows and the two columns. -/
def candidateLists2 : List (List Coord) :=
  [[(0, 0), (1, 0)], [(0, 1), (1, 1)],
   [(0, 0), (0, 1)], [(1, 0), (1, 1)]]

theorem candidate2_mem (orientation : Orientation) (r1 r2 : Nat)
    (h : validDraw 2 2 r1 r2) :
    select_random_pos orientation 2 2 r1 r2 ∈ candidateLists2 := by
  obtain ⟨_, hr1, hr2⟩ := h
  have h2 : r2 = 0 := by omega
  subst h2
  interval_cases r1 <;> cases orientation <;> decide

theorem candidates_ne_nil : ∀ p ∈ candidateLists2, p ≠ [] := by decide

theorem candidates_subset_grid :
    ∀ p ∈ candidateLists2, ∀ c ∈ p, c ∈ grid4 := by decide

theorem two_candidates_cover :
    ∀ p1 ∈ candidateLists2, ∀ p2 ∈ candidateLists2,
      (∀ c ∈ p2, c ∉ p1) → ∀ c ∈ grid4, c ∈ p1 ∨ c ∈ p2 := by decide

/-- Once the occupied set covers the whole 2 × 2 grid, the
collision-retry loop for a length-2 word never exits, whatever fuel it
is given: every valid candidate collides. -/
theorem retryLoop_full_none (orientation : Orientation)
    (occ : List Coord) (dr : Nat → Nat × Nat)
    (hv : ∀ a, validDraw 2 2 (dr a).1 (dr a).2)
    (hocc : ∀ c ∈ grid4, c ∈ occ) :
    ∀ fuel attempt,
      retryLoop orientation 2 2 occ dr attempt fuel = none := by
  intro fuel
  induction fuel with
  | zero => intro attempt; rfl
  | succ fuel ih =>
    intro attempt
    rw [retryLoop]
    have hmem := candidate2_mem orientation (dr attempt).1 (dr attempt).2
      (hv attempt)
    obtain ⟨c, hc⟩ := List.exists_mem_of_ne_nil _
      (candidates_ne_nil _ hmem)
    have hcg : c ∈ grid4 := candidates_subset_grid _ hmem c hc
    rw [if_pos (List.any_eq_true.mpr
      ⟨c, hc, by simpa using hocc c hcg⟩)]
    exact ih (attempt + 1)

/-- C5: a word list needing more distinct cells than the grid has does
NOT make setup fail fast; the collision retry loop simply never exits.
Three length-2 words on a 4-cell grid need 6 distinct cells; whatever
orientations the words were assigned and whatever (valid) randrange
draws the retry loop is fed, and for every fuel bound, __select_pos has
not terminated: the first two accepted placements necessarily cover all
4 cells, so every candidate for the third word collides, forever. -/
theorem overpacked_setup_never_exits_retry (o1 o2 o3 : Orientation)
    (draws : Nat → Nat → Nat × Nat) (fuel : Nat)
    (hv : ∀ i a, validDraw 2 2 (draws i a).1 (draws i a).2) :
    select_pos [(("AB" : String), o1), (("BA" : String), o2),
      (("CD" : String), o3)] 4 draws fuel = none := by
  rw [select_pos, sqrt_four, selectPosGo]
  rw [show ("AB" : String).length = 2 from rfl]
  cases hr1 : retryLoop o1 2 2 [] (draws 0) 0 fuel with
  | none => rfl
  | some p1 =>
    dsimp only
    have hp1 : p1 ∈ candidateLists2 := by
      obtain ⟨a, ha⟩ := retryLoop_some_candidate o1 2 2 [] (draws 0) 0
        fuel p1 hr1
      rw [ha]
      exact candidate2_mem o1 (draws 0 a).1 (draws 0 a).2 (hv 0 a)
    rw [selectPosGo]
    rw [show ("BA" : String).length = 2 from rfl]
    cases hr2 : retryLoop o2 2 2 ([] ++ p1) (draws 1) 0 fuel with
    | none => rfl
    | some p2 =>
      dsimp only
      have hp2 : p2 ∈ candidateLists2 := by
        obtain ⟨a, ha⟩ := retryLoop_some_candidate o2 2 2 ([] ++ p1)
          (draws 1) 0 fuel p2 hr2
        rw [ha]
        exact candidate2_mem o2 (draws 1 a).1 (draws 1 a).2 (hv 1 a)
      have hdisj : ∀ c ∈ p2, c ∉ p1 := by
        intro c hc hcp1
        exact retryLoop_some_not_mem o2 2 2 ([] ++ p1) (draws 1) 0 fuel
          p2 hr2 c hc (by simpa using hcp1)
      have hcover := two_candidates_cover p1 hp1 p2 hp2 hdisj
      rw [selectPosGo]
      rw [show ("CD" : String).length = 2 from rfl]
      rw [retryLoop_full_none o3 (([] ++ p1) ++ p2) (draws 2)
        (hv 2) (fun c hcg => by
          rcases hcover c hcg with hcp | hcp <;> simp [hcp]) fuel 0]

/-- Witness for overpacked_setup_never_exits_retry: all three words
horizontal, a concrete draw oracle alternating between the two rows,
fuel 3. -/
theorem overpacked_setup_never_exits_retry_witness :
    select_pos [(("AB" : String), Orientation.HL),
      (("BA" : String), Orientation.HL),
      (("CD" : String), Orientation.HL)]
      4 (fun i a => ((i + a) % 2, 0)) 3 = none :=
  overpacked_setup_never_exits_retry Orientation.HL Orientation.HL
    Orientation.HL (fun i a => ((i + a) % 2, 0)) 3
    (fun i a => by
      show validDraw 2 2 ((i + a) % 2) 0
      exact ⟨Nat.le_refl 2, Nat.mod_lt _ (by decide), by decide⟩)

end Crossword
